import Mathlib

/-!
Verification of the live-meeting transcription pipeline: a shallow
embedding of the capture and transcription code
(src/backend/meeting_capture.py and src/backend/transcriber.py),
followed by theorems settling the specification claims about the
confidence gate, the correction layer, the per-frame audio
post-processing, the stream mixer, and the session lifecycle.
-/

namespace AIMeetingNotes

/-- Python str.strip with no argument: drop whitespace from both ends. -/
def pyStrip (s : String) : String :=
  String.mk (((s.toList.dropWhile Char.isWhitespace).reverse.dropWhile Char.isWhitespace).reverse)

/-- Python str.replace(pat, "") for a non-empty pattern, scanning left to
right and deleting every occurrence.  The fuel argument makes the
recursion structural; callers pass the length of the scanned list, which
is always enough fuel because each step consumes at least one character. -/
def removeAllAux (pat : List Char) : Nat → List Char → List Char
  | _, [] => []
  | 0, l => l
  | fuel + 1, c :: rest =>
    if pat.isPrefixOf (c :: rest) then removeAllAux pat fuel (rest.drop (pat.length - 1))
    else c :: removeAllAux pat fuel rest

/-- Python s.replace(pat, "") on strings, for a non-empty pattern. -/
def removeAllStr (s : String) (pat : String) : String :=
  String.mk (removeAllAux (pat.toList) (s.toList.length) (s.toList))

/-- Transcript segment as delivered by the Whisper transcription contract:
stripped text is taken later, so text is stored raw here; avg_logprob is
the confidence (log-probability scale) and no_speech_prob the
speech-presence complement (spec data model TranscriptSegment). -/
structure TranscriptSegment where
  text : String
  avgLogprob : ℚ
  noSpeechProb : ℚ
deriving DecidableEq

/-- Result of model.transcribe: the full text plus the segment list. -/
structure WhisperResult where
  text : String
  segments : List TranscriptSegment
deriving DecidableEq

/-- Entry of flagged_parts in Transcriber.transcribe_audio: the dict with
keys text, confidence and index (transcriber.py lines 74-78). -/
structure FlaggedPart where
  text : String
  confidence : ℚ
  index : Nat
deriving DecidableEq

/-- Correction contract: the Groq chat-completion call, mapping the
(uncertain phrase, full context) pair to the reply content, or to an
error when the call raises or times out. -/
abbrev GroqOracle := String → String → Except Unit String

namespace Transcriber

/-- Confidence threshold below which segments are sent for correction
(transcriber.py line 13: -0.8). -/
def CONFIDENCE_THRESHOLD : ℚ := -8/10

/-- Placeholder string written into final_parts for a flagged segment
(transcriber.py line 79). -/
def placeholder (t : String) : String := "[?]" ++ t ++ "[/?]"

/-- Loop body of the segment pass of transcribe_audio (lines 63-82):
skip a segment whose no_speech_prob exceeds 0.6; wrap a low-confidence
segment in the placeholder and record it in flagged_parts with the
current length of final_parts as its index; append all others verbatim. -/
def stage1Step (acc : List String × List FlaggedPart) (seg : TranscriptSegment) :
    List String × List FlaggedPart :=
  let text := pyStrip seg.text
  if seg.noSpeechProb > 3/5 then acc
  else if seg.avgLogprob < CONFIDENCE_THRESHOLD then
    (acc.1 ++ [placeholder text], acc.2 ++ [⟨text, seg.avgLogprob, acc.1.length⟩])
  else (acc.1 ++ [text], acc.2)

/-- Segment pass of transcribe_audio (lines 60-82), producing the
provisional final_parts and the flagged_parts lists. -/
def stage1 (segs : List TranscriptSegment) : List String × List FlaggedPart :=
  segs.foldl stage1Step ([], [])

/-- Recursive characterization of stage1 used by the proofs: the offset n
is the number of parts already emitted ahead of the remaining segments. -/
def stage1Rec (n : Nat) : List TranscriptSegment → List String × List FlaggedPart
  | [] => ([], [])
  | seg :: rest =>
    let text := pyStrip seg.text
    if seg.noSpeechProb > 3/5 then stage1Rec n rest
    else if seg.avgLogprob < CONFIDENCE_THRESHOLD then
      ((placeholder text) :: (stage1Rec (n+1) rest).1,
        (⟨text, seg.avgLogprob, n⟩ : FlaggedPart) :: (stage1Rec (n+1) rest).2)
    else (text :: (stage1Rec (n+1) rest).1, (stage1Rec (n+1) rest).2)

/-- Speech filter: a segment survives when its no_speech_prob is not
above 0.6 (the complement of the continue branch at line 69). -/
def keepSeg (seg : TranscriptSegment) : Bool := decide (seg.noSpeechProb ≤ 3/5)

/-- Confidence gate: a surviving segment is flagged when its avg_logprob
is below the threshold (line 72). -/
def isFlagged (seg : TranscriptSegment) : Bool :=
  decide (seg.avgLogprob < CONFIDENCE_THRESHOLD)

/-- Entry that the segment pass writes into final_parts for one surviving
segment. -/
def partEntry (seg : TranscriptSegment) : String :=
  if isFlagged seg then placeholder (pyStrip seg.text) else pyStrip seg.text

/-- Number of segments surviving the speech filter among the first i
segments: the position in final_parts of the i-th segment when it
survives. -/
def keptBefore (segs : List TranscriptSegment) (i : Nat) : Nat :=
  ((segs.take i).filter keepSeg).length

/-- Transcriber._correct_with_groq (lines 104-136): query the correction
contract; a raised exception falls back to the original text; a reply
longer than three times the original is discarded in favor of the
original; otherwise the stripped reply is returned. -/
def correctWithGroq (oracle : GroqOracle) (uncertainText fullContext : String) : String :=
  match oracle uncertainText fullContext with
  | Except.error _ => uncertainText
  | Except.ok resp =>
    let corrected := pyStrip resp
    if corrected.length > uncertainText.length * 3 then uncertainText
    else corrected

/-- Full-transcript context passed to the correction calls (lines 86-87):
join the provisional parts with spaces after deleting the placeholder
markers from each part. -/
def fullContext (parts : List String) : String :=
  String.intercalate (" ") (parts.map (fun p => removeAllStr (removeAllStr p ("[?]")) ("[/?]")))

/-- Correction pass of transcribe_audio (lines 89-93): for each flagged
part ask for a correction; a non-empty (truthy) result overwrites the
entry of final_parts at the recorded index. -/
def applyCorrections (oracle : GroqOracle) (ctx : String) (parts : List String)
    (flagged : List FlaggedPart) : List String :=
  flagged.foldl
    (fun ps f =>
      let corrected := correctWithGroq oracle f.text ctx
      if corrected ≠ "" then ps.set f.index corrected else ps)
    parts

/-- Segment-processing core of transcribe_audio on one frame's segment
list (lines 59-93), returning final_parts just before the final join.
The Option argument models whether the Groq client is configured
(line 85: corrections run only when flagged parts exist and the client
is set). -/
def transcribeParts (groq : Option GroqOracle) (segs : List TranscriptSegment) :
    List String :=
  let st := stage1 segs
  match groq with
  | some oracle =>
    if st.2 = [] then st.1 else applyCorrections oracle (fullContext st.1) st.1 st.2
  | none => st.1

/-- Transcriber.transcribe_audio (lines 39-99).  The audioData argument
models the Python parameter (none for None); the engine argument is the
Whisper transcription contract, returning an error when model.transcribe
raises, in which case the except-branch at line 97 returns the empty
string. -/
def transcribeFull (groq : Option GroqOracle)
    (engine : List ℚ → Except Unit WhisperResult) (audioData : Option (List ℚ)) : String :=
  match audioData with
  | none => ""
  | some samples =>
    if samples.length = 0 then ""
    else
      match engine samples with
      | Except.error _ => ""
      | Except.ok r =>
        if r.segments = [] then pyStrip r.text
        else pyStrip (String.intercalate (" ") (transcribeParts groq r.segments))

/-- Oracle whose call always raises (a completion-service error or
timeout). -/
def errOracle : GroqOracle := fun _ _ => Except.error ()

/-- Oracle that replies with the empty string. -/
def okEmptyOracle : GroqOracle := fun _ _ => Except.ok ("")

/-- Oracle that replies with a fixed short correction. -/
def okFixedOracle : GroqOracle := fun _ _ => Except.ok ("fixed")

/-- Oracle that replies with a two-character correction. -/
def okShortOracle : GroqOracle := fun _ _ => Except.ok ("xy")

/-- Oracle that replies with an eight-character correction. -/
def okLongOracle : GroqOracle := fun _ _ => Except.ok ("xxxxxxxx")

/-- Engine that always raises inside model.transcribe. -/
def errEngine : List ℚ → Except Unit WhisperResult := fun _ => Except.error ()

end Transcriber

namespace MeetingCapture

/-- Int16 PCM buffer to float samples in [-1, 1):
np.frombuffer(audio_data, dtype=np.int16).astype(np.float32) / 32768.0
(meeting_capture.py lines 312 and 396). -/
def int16ToFloat (raw : List ℤ) : List ℚ := raw.map (fun v : ℤ => (v : ℚ) / 32768)

/-- Maximum absolute sample, np.max(np.abs(chunk)); 0 on the empty list,
which the capture loops never produce. -/
def maxAbs (xs : List ℚ) : ℚ := xs.foldl (fun m v => max m |v|) 0

/-- Peak normalization (lines 315-317): scale the chunk so its maximum
absolute sample becomes 0.95, skipped when the maximum is 0. -/
def peakNormalize (xs : List ℚ) : List ℚ :=
  if 0 < maxAbs xs then xs.map (fun v => v / maxAbs xs * (19/20)) else xs

/-- Noise gate (line 320): zero every sample whose absolute value is
below 0.01. -/
def noiseGate (xs : List ℚ) : List ℚ :=
  xs.map (fun v => if |v| < 1/100 then 0 else v)

/-- Stereo to mono by averaging consecutive interleaved sample pairs:
reshape(-1, 2).mean(axis=1) (lines 324 and 400).  A trailing unpaired
sample is dropped; the source only reaches this on even-length buffers,
where numpy's reshape would otherwise raise. -/
def stereoToMono : List ℚ → List ℚ
  | a :: b :: rest => (a + b) / 2 :: stereoToMono rest
  | _ => []

/-- Evenly spaced sample positions, np.linspace(lo, hi, num) with the
endpoint included (num = 1 yields just lo, num = 0 the empty list). -/
def linspace (lo hi : ℚ) (num : Nat) : List ℚ :=
  if num ≤ 1 then List.replicate num lo
  else (List.range num).map (fun i : Nat => lo + (hi - lo) * (i : ℚ) / ((num : ℚ) - 1))

/-- Linear interpolation np.interp at one position over samples located
at the integer coordinates 0, 1, ..., len-1, clamping positions outside
that range. -/
def interpAt (samples : List ℚ) (pos : ℚ) : ℚ :=
  if pos ≤ 0 then samples.getD 0 0
  else if ((samples.length : ℚ) - 1) ≤ pos then samples.getD (samples.length - 1) 0
  else
    let k := (⌊pos⌋).toNat
    samples.getD k 0 + (pos - (k : ℚ)) * (samples.getD (k+1) 0 - samples.getD k 0)

/-- MeetingCapture._resample (lines 343-354): the identity when the two
rates match; otherwise linear interpolation at
int(len(audio) / orig_sr * target_sr) evenly spaced positions.  The none
results model the exceptions this code can raise: ZeroDivisionError when
orig_sr is 0, and the np.interp failure on an empty sample array. -/
def resample (samples : List ℚ) (origSr targetSr : Nat) : Option (List ℚ) :=
  if origSr = targetSr then some samples
  else if origSr = 0 then none
  else
    let targetLength := samples.length * targetSr / origSr
    if samples.isEmpty then none
    else some ((linspace 0 ((samples.length : ℚ) - 1) targetLength).map (interpAt samples))

/-- Per-frame post-processing of MeetingCapture._capture_loop
(lines 311-328): PCM to float, peak normalization, noise gate, a
conditional stereo downmix (taken when the buffer holds more samples
than one chunk: even length averages pairs, odd length truncates), then
resampling when the stream rate is not 16000. -/
def captureProcessSingle (chunkSamples actualRate : Nat) (raw : List ℤ) :
    Option (List ℚ) :=
  let a1 := noiseGate (peakNormalize (int16ToFloat raw))
  let a2 :=
    if chunkSamples < a1.length then
      (if a1.length % 2 = 0 then stereoToMono a1 else a1.take chunkSamples)
    else a1
  if actualRate ≠ 16000 then resample a2 actualRate 16000 else some a2

/-- Per-frame post-processing of MeetingCapture._capture_loop_dual
(lines 395-404): PCM to float, stereo downmix when the stream was opened
with two channels, then resampling when the stream rate is not 16000.
This path applies no peak normalization and no noise gate. -/
def captureProcessDual (channels actualRate : Nat) (raw : List ℤ) : Option (List ℚ) :=
  let a1 := int16ToFloat raw
  let a2 := if channels = 2 then stereoToMono a1 else a1
  if actualRate ≠ 16000 then resample a2 actualRate 16000 else some a2

/-- Modelled from the spec: the five-step per-frame pipeline the claim
asserts for every capture worker: integer PCM to float, peak
normalization to 0.95, noise gate at 0.01, stereo-to-mono downmix by
channel averaging, resample to 16 kHz when the native rate differs.
This definition follows the claim's words and is compared against the
two capture-loop embeddings above. -/
def specFiveStep (channels actualRate : Nat) (raw : List ℤ) : Option (List ℚ) :=
  let a1 := int16ToFloat raw
  let a2 := peakNormalize a1
  let a3 := noiseGate a2
  let a4 := if channels = 2 then stereoToMono a3 else a3
  if actualRate ≠ 16000 then resample a4 actualRate 16000 else some a4

/-- Mixed frame (lines 441-446): truncate both frames to the shorter
length and average sample-by-sample. -/
def mixFrame (a b : List ℚ) : List ℚ :=
  let minLen := min a.length b.length
  List.zipWith (fun x y => (x + y) / 2) (a.take minLen) (b.take minLen)

/-- MeetingCapture._try_mix_audio (lines 430-449), acting on the two
per-source queues and the shared output queue (front of list = front of
queue): when both per-source queues are non-empty, dequeue one frame
from each and append their mix to the output queue; otherwise leave all
three queues untouched. -/
def tryMix (micQ speakerQ outQ : List (List ℚ)) :
    List (List ℚ) × List (List ℚ) × List (List ℚ) :=
  match micQ, speakerQ with
  | a :: restMic, b :: restSpeaker => (restMic, restSpeaker, outQ ++ [mixFrame a b])
  | _, _ => (micQ, speakerQ, outQ)

/-- Arguments of MeetingCapture.start (line 167). -/
structure StartArgs where
  deviceIndex : Option Nat
  sampleRate : Nat
  chunkDuration : Nat
  captureBoth : Bool
deriving DecidableEq

/-- Device-discovery environment start consults: the results of
_find_microphone, of the loopback or stereo-mix lookup for the speaker
side, and of the auto-detection used in single-source mode. -/
structure StartEnv where
  micDevice : Option Nat
  speakerDevice : Option Nat
  autoDevice : Option Nat
deriving DecidableEq

/-- Mutable state of the capture object that start reads and writes:
the recording flag, the stored rate and chunk size, and the number of
worker threads spawned so far. -/
structure CaptureState where
  isRecording : Bool
  sampleRate : Nat
  chunkSize : Nat
  workerThreads : Nat
deriving DecidableEq

/-- MeetingCapture.start (lines 167-254): sets is_recording = True
unconditionally on entry, stores the rate and chunk size, resolves
devices, spawns one or two capture threads and returns True, or resets
is_recording and returns False when no device is found.  The source
contains no already-active check and no AlreadyRunning error; the Bool
is its only result channel. -/
def start (st : CaptureState) (args : StartArgs) (env : StartEnv) : CaptureState × Bool :=
  let st' := { st with isRecording := true, sampleRate := args.sampleRate,
                       chunkSize := args.sampleRate * args.chunkDuration }
  if args.captureBoth then
    match env.micDevice, env.speakerDevice with
    | some _, some _ => ({ st' with workerThreads := st'.workerThreads + 2 }, true)
    | _, _ => ({ st' with isRecording := false }, false)
  else
    match (match args.deviceIndex with | some d => some d | none => env.autoDevice) with
    | some _ => ({ st' with workerThreads := st'.workerThreads + 1 }, true)
    | none => ({ st' with isRecording := false }, false)

/-- Session state visible to MeetingCapture.stop: the recording flag,
liveness of the up-to-three worker threads, and the three queues
audio_queue (outputQueue here), mic_queue and speaker_queue, with the
front of the list being the front of the queue. -/
structure SessionState where
  isRecording : Bool
  threadAlive : Bool
  micThreadAlive : Bool
  speakerThreadAlive : Bool
  outputQueue : List (List ℚ)
  micQueue : List (List ℚ)
  speakerQueue : List (List ℚ)
deriving DecidableEq

/-- Drain loop of stop (lines 567-571): get_nowait until audio_queue is
empty. -/
def drainLoop : List (List ℚ) → List (List ℚ)
  | [] => []
  | _ :: rest => drainLoop rest

/-- Join calls stop performs (lines 557-564): each existing live worker
thread is joined with a timeout of 2 seconds. -/
def stopJoins (s : SessionState) : List (String × Nat) :=
  (if s.threadAlive then [(("thread" : String), 2)] else [])
    ++ (if s.micThreadAlive then [(("mic_thread" : String), 2)] else [])
    ++ (if s.speakerThreadAlive then [(("speaker_thread" : String), 2)] else [])

/-- MeetingCapture.stop (lines 552-573): clear is_recording, join the
live workers with the 2-second bound (the join outcomes are never
consulted, so a timed-out join is simply abandoned), drain audio_queue,
and return.  joinTimedOut reports which joins hit the timeout; the
result does not depend on it, and the per-source queues are untouched. -/
def stop (s : SessionState) (joinTimedOut : String → Bool) : SessionState :=
  { s with isRecording := false, outputQueue := drainLoop s.outputQueue }

end MeetingCapture

/-!
Theorems.  First the structural lemmas about the transcriber embedding,
then the claim theorems.
-/

namespace Transcriber

theorem stage1_foldl (segs : List TranscriptSegment) :
    ∀ ps fs, segs.foldl stage1Step (ps, fs)
      = (ps ++ (stage1Rec ps.length segs).1, fs ++ (stage1Rec ps.length segs).2) := by
  induction segs with
  | nil => intro ps fs; simp [stage1Rec]
  | cons seg rest ih =>
    intro ps fs
    rw [List.foldl_cons]
    by_cases h1 : seg.noSpeechProb > 3/5
    · rw [show stage1Step (ps, fs) seg = (ps, fs) from by simp [stage1Step, h1]]
      rw [ih ps fs]
      simp [stage1Rec, h1]
    · by_cases h2 : seg.avgLogprob < CONFIDENCE_THRESHOLD
      · rw [show stage1Step (ps, fs) seg
            = (ps ++ [placeholder (pyStrip seg.text)],
               fs ++ [⟨pyStrip seg.text, seg.avgLogprob, ps.length⟩]) from by
          simp [stage1Step, h1, h2]]
        rw [ih]
        simp [stage1Rec, h1, h2]
      · rw [show stage1Step (ps, fs) seg = (ps ++ [pyStrip seg.text], fs) from by
          simp [stage1Step, h1, h2]]
        rw [ih]
        simp [stage1Rec, h1, h2]

theorem stage1_eq (segs : List TranscriptSegment) : stage1 segs = stage1Rec 0 segs := by
  simpa [stage1] using stage1_foldl segs [] []

theorem stage1Rec_fst (n : Nat) (segs : List TranscriptSegment) :
    (stage1Rec n segs).1 = (segs.filter keepSeg).map partEntry := by
  induction segs generalizing n with
  | nil => simp [stage1Rec]
  | cons seg rest ih =>
    by_cases h1 : seg.noSpeechProb > 3/5
    · have hk : keepSeg seg = false := by
        simp only [keepSeg, decide_eq_false_iff_not, not_le]
        exact h1
      simp [stage1Rec, h1, List.filter_cons, hk, ih]
    · have hk : keepSeg seg = true := by
        simp only [keepSeg, decide_eq_true_eq]
        exact le_of_not_lt h1
      by_cases h2 : seg.avgLogprob < CONFIDENCE_THRESHOLD
      · have hf : isFlagged seg = true := by
          simp only [isFlagged, decide_eq_true_eq]
          exact h2
        simp [stage1Rec, h1, h2, List.filter_cons, hk, ih, partEntry, hf]
      · have hf : isFlagged seg = false := by
          simp only [isFlagged, decide_eq_false_iff_not]
          exact h2
        simp [stage1Rec, h1, h2, List.filter_cons, hk, ih, partEntry, hf]

theorem stage1Rec_snd_spec (segs : List TranscriptSegment) :
    ∀ n f, f ∈ (stage1Rec n segs).2 →
      ∃ j seg, (segs.filter keepSeg)[j]? = some seg ∧ f.index = n + j
        ∧ isFlagged seg = true ∧ f.text = pyStrip seg.text := by
  induction segs with
  | nil => intro n f hf; simp [stage1Rec] at hf
  | cons seg rest ih =>
    intro n f hf
    by_cases h1 : seg.noSpeechProb > 3/5
    · have hk : keepSeg seg = false := by
        simp only [keepSeg, decide_eq_false_iff_not, not_le]
        exact h1
      rw [show (stage1Rec n (seg :: rest)).2 = (stage1Rec n rest).2 from by
        simp [stage1Rec, h1]] at hf
      obtain ⟨j, s, hj, hi, hfl, ht⟩ := ih n f hf
      exact ⟨j, s, by simp [List.filter_cons, hk, hj], hi, hfl, ht⟩
    · have hk : keepSeg seg = true := by
        simp only [keepSeg, decide_eq_true_eq]
        exact le_of_not_lt h1
      by_cases h2 : seg.avgLogprob < CONFIDENCE_THRESHOLD
      · have hf2 : isFlagged seg = true := by
          simp only [isFlagged, decide_eq_true_eq]
          exact h2
        rw [show (stage1Rec n (seg :: rest)).2
            = (⟨pyStrip seg.text, seg.avgLogprob, n⟩ : FlaggedPart) :: (stage1Rec (n+1) rest).2
          from by simp [stage1Rec, h1, h2]] at hf
        rcases List.mem_cons.mp hf with heq | hmem
        · subst heq
          exact ⟨0, seg, by simp [List.filter_cons, hk], by simp, hf2, rfl⟩
        · obtain ⟨j, s, hj, hi, hfl, ht⟩ := ih (n+1) f hmem
          refine ⟨j + 1, s, ?_, ?_, hfl, ht⟩
          · simp [List.filter_cons, hk, hj]
          · omega
      · rw [show (stage1Rec n (seg :: rest)).2 = (stage1Rec (n+1) rest).2 from by
          simp [stage1Rec, h1, h2]] at hf
        obtain ⟨j, s, hj, hi, hfl, ht⟩ := ih (n+1) f hf
        refine ⟨j + 1, s, ?_, ?_, hfl, ht⟩
        · simp [List.filter_cons, hk, hj]
        · omega

theorem stage1Rec_snd_intro (segs : List TranscriptSegment) :
    ∀ n i seg, segs[i]? = some seg → keepSeg seg = true → isFlagged seg = true →
      (⟨pyStrip seg.text, seg.avgLogprob, n + keptBefore segs i⟩ : FlaggedPart)
        ∈ (stage1Rec n segs).2 := by
  induction segs with
  | nil => intro n i seg h; simp at h
  | cons s rest ih =>
    intro n i seg hget hk hf
    cases i with
    | zero =>
      rw [List.getElem?_cons_zero] at hget
      injection hget with hget
      subst hget
      have h1 : ¬ s.noSpeechProb > 3/5 := by
        rw [keepSeg, decide_eq_true_eq] at hk
        exact not_lt.mpr hk
      have h2 : s.avgLogprob < CONFIDENCE_THRESHOLD := by
        rwa [isFlagged, decide_eq_true_eq] at hf
      have hkb : keptBefore (s :: rest) 0 = 0 := by simp [keptBefore]
      rw [hkb]
      simp [stage1Rec, h1, h2]
    | succ i =>
      rw [List.getElem?_cons_succ] at hget
      by_cases h1 : s.noSpeechProb > 3/5
      · have hks : keepSeg s = false := by
          simp only [keepSeg, decide_eq_false_iff_not, not_le]
          exact h1
        have hkb : keptBefore (s :: rest) (i + 1) = keptBefore rest i := by
          simp [keptBefore, List.take_succ_cons, List.filter_cons, hks]
        rw [hkb]
        rw [show (stage1Rec n (s :: rest)).2 = (stage1Rec n rest).2 from by
          simp [stage1Rec, h1]]
        exact ih n i seg hget hk hf
      · have hks : keepSeg s = true := by
          simp only [keepSeg, decide_eq_true_eq]
          exact le_of_not_lt h1
        have hkb : keptBefore (s :: rest) (i + 1) = keptBefore rest i + 1 := by
          simp [keptBefore, List.take_succ_cons, List.filter_cons, hks]
        have hmem := ih (n + 1) i seg hget hk hf
        by_cases h2 : s.avgLogprob < CONFIDENCE_THRESHOLD
        · rw [show (stage1Rec n (s :: rest)).2
              = (⟨pyStrip s.text, s.avgLogprob, n⟩ : FlaggedPart) :: (stage1Rec (n+1) rest).2
            from by simp [stage1Rec, h1, h2]]
          refine List.mem_cons_of_mem _ ?_
          rw [hkb]
          have : n + (keptBefore rest i + 1) = n + 1 + keptBefore rest i := by omega
          rw [this]
          exact hmem
        · rw [show (stage1Rec n (s :: rest)).2 = (stage1Rec (n+1) rest).2 from by
            simp [stage1Rec, h1, h2]]
          rw [hkb]
          have : n + (keptBefore rest i + 1) = n + 1 + keptBefore rest i := by omega
          rw [this]
          exact hmem

theorem stage1Rec_snd_pairwise (segs : List TranscriptSegment) :
    ∀ n, ((stage1Rec n segs).2).Pairwise (fun a b => a.index < b.index) := by
  induction segs with
  | nil => intro n; simp [stage1Rec]
  | cons seg rest ih =>
    intro n
    by_cases h1 : seg.noSpeechProb > 3/5
    · rw [show (stage1Rec n (seg :: rest)).2 = (stage1Rec n rest).2 from by
        simp [stage1Rec, h1]]
      exact ih n
    · by_cases h2 : seg.avgLogprob < CONFIDENCE_THRESHOLD
      · rw [show (stage1Rec n (seg :: rest)).2
            = (⟨pyStrip seg.text, seg.avgLogprob, n⟩ : FlaggedPart) :: (stage1Rec (n+1) rest).2
          from by simp [stage1Rec, h1, h2]]
        refine List.Pairwise.cons ?_ (ih (n+1))
        intro b hb
        obtain ⟨j, s, _, hi, _, _⟩ := stage1Rec_snd_spec rest (n+1) b hb
        simp only
        omega
      · rw [show (stage1Rec n (seg :: rest)).2 = (stage1Rec (n+1) rest).2 from by
          simp [stage1Rec, h1, h2]]
        exact ih (n+1)

theorem filter_getElem?_keptBefore (segs : List TranscriptSegment) :
    ∀ i seg, segs[i]? = some seg → keepSeg seg = true →
      (segs.filter keepSeg)[keptBefore segs i]? = some seg := by
  induction segs with
  | nil => intro i seg h; simp at h
  | cons s rest ih =>
    intro i seg hget hk
    cases i with
    | zero =>
      rw [List.getElem?_cons_zero] at hget
      injection hget with hget
      subst hget
      simp [keptBefore, List.filter_cons, hk]
    | succ i =>
      rw [List.getElem?_cons_succ] at hget
      by_cases hks : keepSeg s
      · have hkb : keptBefore (s :: rest) (i + 1) = keptBefore rest i + 1 := by
          simp [keptBefore, List.take_succ_cons, List.filter_cons, hks]
        rw [hkb, List.filter_cons, if_pos hks, List.getElem?_cons_succ]
        exact ih i seg hget hk
      · have hkb : keptBefore (s :: rest) (i + 1) = keptBefore rest i := by
          simp [keptBefore, List.take_succ_cons, List.filter_cons, hks]
        rw [hkb, List.filter_cons, if_neg hks]
        exact ih i seg hget hk

theorem applyCorrections_cons (oracle : GroqOracle) (ctx : String)
    (parts : List String) (f : FlaggedPart) (fs : List FlaggedPart) :
    applyCorrections oracle ctx parts (f :: fs)
      = applyCorrections oracle ctx
          (if correctWithGroq oracle f.text ctx ≠ "" then
            parts.set f.index (correctWithGroq oracle f.text ctx)
          else parts) fs := by
  simp only [applyCorrections, List.foldl_cons]

theorem applyCorrections_getElem?_of_not_mem (oracle : GroqOracle) (ctx : String)
    (flagged : List FlaggedPart) :
    ∀ (parts : List String) (j : Nat), (∀ f ∈ flagged, f.index ≠ j) →
      (applyCorrections oracle ctx parts flagged)[j]? = parts[j]? := by
  induction flagged with
  | nil => intro parts j _; rfl
  | cons f fs ih =>
    intro parts j h
    rw [applyCorrections_cons, ih _ j (fun g hg => h g (List.mem_cons_of_mem f hg))]
    split
    · exact List.getElem?_set_ne (h f (List.mem_cons_self f fs))
    · rfl

theorem applyCorrections_length (oracle : GroqOracle) (ctx : String)
    (flagged : List FlaggedPart) :
    ∀ parts : List String,
      (applyCorrections oracle ctx parts flagged).length = parts.length := by
  induction flagged with
  | nil => intro parts; rfl
  | cons f fs ih =>
    intro parts
    rw [applyCorrections_cons, ih]
    split
    · exact List.length_set parts f.index _
    · rfl

theorem applyCorrections_getElem?_of_mem (oracle : GroqOracle) (ctx : String)
    (flagged : List FlaggedPart) :
    ∀ (parts : List String) (f : FlaggedPart), f ∈ flagged →
      flagged.Pairwise (fun a b => a.index < b.index) →
      parts[f.index]? = some (placeholder f.text) →
      (applyCorrections oracle ctx parts flagged)[f.index]?
        = some (if correctWithGroq oracle f.text ctx = "" then placeholder f.text
                else correctWithGroq oracle f.text ctx) := by
  induction flagged with
  | nil => intro _ f h; simp at h
  | cons g fs ih =>
    intro parts f hmem hpw hval
    rw [applyCorrections_cons]
    rcases List.mem_cons.mp hmem with heq | hmem'
    · subst heq
      have hne : ∀ b ∈ fs, b.index ≠ f.index := fun b hb =>
        Nat.ne_of_gt ((List.pairwise_cons.mp hpw).1 b hb)
      rw [applyCorrections_getElem?_of_not_mem oracle ctx fs _ f.index hne]
      by_cases hc : correctWithGroq oracle f.text ctx = ""
      · rw [if_neg (by simpa using hc), if_pos hc]
        exact hval
      · have hlt : f.index < parts.length := by
          obtain ⟨hw, _⟩ := List.getElem?_eq_some.mp hval
          exact hw
        rw [if_pos hc, if_neg hc]
        exact List.getElem?_set_self hlt
    · have hgf : g.index < f.index := (List.pairwise_cons.mp hpw).1 f hmem'
      refine ih _ f hmem' (List.pairwise_cons.mp hpw).2 ?_
      split
      · rw [List.getElem?_set_ne (Nat.ne_of_lt hgf)]
        exact hval
      · exact hval

theorem string_length_zero {s : String} (h : s.length = 0) : s = ("" : String) := by
  cases s with
  | mk data =>
    have hd : data = [] := List.length_eq_zero.mp h
    subst hd
    rfl

theorem stage1_fst_flagged_getElem? (segs : List TranscriptSegment) (i : Nat)
    (seg : TranscriptSegment) (hget : segs[i]? = some seg)
    (hns : seg.noSpeechProb ≤ 3/5)
    (hconf : seg.avgLogprob < CONFIDENCE_THRESHOLD) :
    ((stage1 segs).1)[keptBefore segs i]? = some (placeholder (pyStrip seg.text)) := by
  have hk : keepSeg seg = true := by
    simp only [keepSeg, decide_eq_true_eq]
    exact hns
  have hf : isFlagged seg = true := by
    simp only [isFlagged, decide_eq_true_eq]
    exact hconf
  rw [stage1_eq, stage1Rec_fst, List.getElem?_map,
    filter_getElem?_keptBefore segs i seg hget hk]
  simp [partEntry, hf]

theorem stage1_fst_verbatim_getElem? (segs : List TranscriptSegment) (i : Nat)
    (seg : TranscriptSegment) (hget : segs[i]? = some seg)
    (hns : seg.noSpeechProb ≤ 3/5)
    (hconf : CONFIDENCE_THRESHOLD ≤ seg.avgLogprob) :
    ((stage1 segs).1)[keptBefore segs i]? = some (pyStrip seg.text) := by
  have hk : keepSeg seg = true := by
    simp only [keepSeg, decide_eq_true_eq]
    exact hns
  have hf : isFlagged seg = false := by
    simp only [isFlagged, decide_eq_false_iff_not]
    exact not_lt.mpr hconf
  rw [stage1_eq, stage1Rec_fst, List.getElem?_map,
    filter_getElem?_keptBefore segs i seg hget hk]
  simp [partEntry, hf]

theorem transcribeParts_flagged_getElem? (oracle : GroqOracle)
    (segs : List TranscriptSegment) (i : Nat) (seg : TranscriptSegment)
    (hget : segs[i]? = some seg)
    (hns : seg.noSpeechProb ≤ 3/5)
    (hconf : seg.avgLogprob < CONFIDENCE_THRESHOLD) :
    (transcribeParts (some oracle) segs)[keptBefore segs i]?
      = some (if correctWithGroq oracle (pyStrip seg.text) (fullContext (stage1 segs).1) = ""
              then placeholder (pyStrip seg.text)
              else correctWithGroq oracle (pyStrip seg.text) (fullContext (stage1 segs).1)) := by
  have hk : keepSeg seg = true := by
    simp only [keepSeg, decide_eq_true_eq]
    exact hns
  have hf : isFlagged seg = true := by
    simp only [isFlagged, decide_eq_true_eq]
    exact hconf
  have hmem : (⟨pyStrip seg.text, seg.avgLogprob, 0 + keptBefore segs i⟩ : FlaggedPart)
      ∈ (stage1Rec 0 segs).2 := stage1Rec_snd_intro segs 0 i seg hget hk hf
  rw [Nat.zero_add] at hmem
  have hnil : (stage1 segs).2 ≠ [] := by
    rw [stage1_eq]
    exact List.ne_nil_of_mem hmem
  have hrw : transcribeParts (some oracle) segs
      = applyCorrections oracle (fullContext (stage1 segs).1) (stage1 segs).1 (stage1 segs).2 := by
    simp only [transcribeParts]
    rw [if_neg hnil]
  rw [hrw]
  exact applyCorrections_getElem?_of_mem oracle (fullContext (stage1 segs).1)
    ((stage1 segs).2) ((stage1 segs).1)
    (⟨pyStrip seg.text, seg.avgLogprob, keptBefore segs i⟩ : FlaggedPart)
    (by rw [stage1_eq]; exact hmem)
    (by rw [stage1_eq]; exact stage1Rec_snd_pairwise segs 0)
    (stage1_fst_flagged_getElem? segs i seg hget hns hconf)

theorem transcribeParts_length (groq : Option GroqOracle) (segs : List TranscriptSegment) :
    (transcribeParts groq segs).length = (segs.filter keepSeg).length := by
  have h1 : ((stage1 segs).1).length = (segs.filter keepSeg).length := by
    rw [stage1_eq, stage1Rec_fst, List.length_map]
  cases groq with
  | none => simpa only [transcribeParts] using h1
  | some oracle =>
    by_cases hnil : (stage1 segs).2 = []
    · simpa only [transcribeParts, if_pos hnil] using h1
    · simp only [transcribeParts]
      rw [if_neg hnil, applyCorrections_length]
      exact h1

/-- C9: a segment that passes the confidence gate verbatim
(no_speech_prob at most 0.6 and avg_logprob at least -0.8) appears in
final_parts at its recorded position with its stripped text exactly as
transcribed, unchanged by the correction pass, for any correction-client
configuration: corrections write only to the indices recorded for
flagged segments. -/
theorem claim_C9_verbatim_segment_preserved (groq : Option GroqOracle)
    (segs : List TranscriptSegment) (i : Nat) (seg : TranscriptSegment)
    (hget : segs[i]? = some seg)
    (hns : seg.noSpeechProb ≤ 3/5)
    (hconf : CONFIDENCE_THRESHOLD ≤ seg.avgLogprob) :
    (transcribeParts groq segs)[keptBefore segs i]? = some (pyStrip seg.text) := by
  have hk : keepSeg seg = true := by
    simp only [keepSeg, decide_eq_true_eq]
    exact hns
  have hf : isFlagged seg = false := by
    simp only [isFlagged, decide_eq_false_iff_not]
    exact not_lt.mpr hconf
  have hparts0 := stage1_fst_verbatim_getElem? segs i seg hget hns hconf
  cases groq with
  | none => simpa only [transcribeParts] using hparts0
  | some oracle =>
    by_cases hnil : (stage1 segs).2 = []
    · simpa only [transcribeParts, if_pos hnil] using hparts0
    · have hrw : transcribeParts (some oracle) segs
          = applyCorrections oracle (fullContext (stage1 segs).1)
              (stage1 segs).1 (stage1 segs).2 := by
        simp only [transcribeParts]
        rw [if_neg hnil]
      rw [hrw]
      have hnotmem : ∀ f ∈ (stage1 segs).2, f.index ≠ keptBefore segs i := by
        intro f hmem hidx
        rw [stage1_eq] at hmem
        obtain ⟨j, s, hj, hi, hfl, _⟩ := stage1Rec_snd_spec segs 0 f hmem
        rw [hi, Nat.zero_add] at hidx
        subst hidx
        rw [filter_getElem?_keptBefore segs i seg hget hk] at hj
        injection hj with hj
        subst hj
        rw [hf] at hfl
        simp at hfl
      rw [applyCorrections_getElem?_of_not_mem oracle _ _ _ _ hnotmem]
      exact hparts0

/-- C9 witness: in a frame with a flagged first segment and a verbatim
second segment, the second segment's stripped text survives the
correction pass unchanged. -/
theorem claim_C9_witness :
    (transcribeParts (some okFixedOracle) [⟨"bad seg", -9/10, 0⟩, ⟨" hi ", -1/2, 0⟩])[
        keptBefore [⟨"bad seg", -9/10, 0⟩, ⟨" hi ", -1/2, 0⟩] 1]?
      = some (pyStrip (" hi ")) :=
  claim_C9_verbatim_segment_preserved (some okFixedOracle)
    [⟨"bad seg", -9/10, 0⟩, ⟨" hi ", -1/2, 0⟩] 1 ⟨" hi ", -1/2, 0⟩ rfl
    (by show (0 : ℚ) ≤ 3/5; norm_num)
    (by show CONFIDENCE_THRESHOLD ≤ (-1/2 : ℚ); norm_num [CONFIDENCE_THRESHOLD])

/-- C1 (amended): with the correction client configured, a flagged
segment's position in final_parts holds the correction result when that
result is non-empty, and the bracketed placeholder of its original text
when the result is empty; the correction result itself is always either
the original text or an accepted service reply of length at most three
times the original.  Without the client the position holds the
placeholder.  The frame's output is the space-join of final_parts,
stripped. -/
theorem claim_C1_flagged_reassembly (oracle : GroqOracle)
    (segs : List TranscriptSegment) (i : Nat) (seg : TranscriptSegment)
    (hget : segs[i]? = some seg)
    (hns : seg.noSpeechProb ≤ 3/5)
    (hconf : seg.avgLogprob < CONFIDENCE_THRESHOLD) :
    ((transcribeParts (some oracle) segs)[keptBefore segs i]?
        = some (if correctWithGroq oracle (pyStrip seg.text) (fullContext (stage1 segs).1) = ""
                then placeholder (pyStrip seg.text)
                else correctWithGroq oracle (pyStrip seg.text) (fullContext (stage1 segs).1)))
    ∧ (correctWithGroq oracle (pyStrip seg.text) (fullContext (stage1 segs).1) = pyStrip seg.text
        ∨ ∃ resp, oracle (pyStrip seg.text) (fullContext (stage1 segs).1) = Except.ok resp
            ∧ correctWithGroq oracle (pyStrip seg.text) (fullContext (stage1 segs).1) = pyStrip resp
            ∧ (pyStrip resp).length ≤ 3 * (pyStrip seg.text).length)
    ∧ (transcribeParts none segs)[keptBefore segs i]? = some (placeholder (pyStrip seg.text))
    ∧ (∀ engine samples txt, samples ≠ ([] : List ℚ) →
        engine samples = Except.ok (⟨txt, segs⟩ : WhisperResult) →
        transcribeFull (some oracle) engine (some samples)
          = pyStrip (String.intercalate (" ") (transcribeParts (some oracle) segs))) := by
  refine ⟨transcribeParts_flagged_getElem? oracle segs i seg hget hns hconf, ?_, ?_, ?_⟩
  · unfold correctWithGroq
    cases horacle : oracle (pyStrip seg.text) (fullContext (stage1 segs).1) with
    | error e => exact Or.inl rfl
    | ok resp =>
      by_cases hlen : (pyStrip resp).length > (pyStrip seg.text).length * 3
      · exact Or.inl (by simp [hlen])
      · refine Or.inr ⟨resp, rfl, by simp [hlen], ?_⟩
        have := le_of_not_lt hlen
        omega
  · simpa only [transcribeParts] using stage1_fst_flagged_getElem? segs i seg hget hns hconf
  · intro engine samples txt hsam heng
    have hsegs : segs ≠ [] := by
      intro h
      rw [h] at hget
      simp at hget
    have h0 : ¬ samples.length = 0 := by
      simpa [List.length_eq_zero] using hsam
    simp only [transcribeFull, heng]
    rw [if_neg h0, if_neg hsegs]

/-- C1 counterexample: with the correction client configured and the
service replying with the empty string, the flagged segment appears in
final_parts as the bracketed placeholder, which is neither its original
text nor the (empty) accepted correction, contradicting the claim that
nothing but the accepted correction or the original text can appear. -/
theorem claim_C1_counterexample :
    (transcribeParts (some okEmptyOracle) [⟨"hello", -9/10, 0⟩])[0]?
        = some ("[?]hello[/?]" : String)
    ∧ ("[?]hello[/?]" : String) ≠ pyStrip ("hello")
    ∧ ("[?]hello[/?]" : String) ≠ pyStrip ("") := by
  refine ⟨?_, by decide, by decide⟩
  have h := transcribeParts_flagged_getElem? okEmptyOracle [⟨"hello", -9/10, 0⟩] 0
    ⟨"hello", -9/10, 0⟩ rfl (by show (0 : ℚ) ≤ 3/5; norm_num)
    (by show (-9/10 : ℚ) < CONFIDENCE_THRESHOLD; norm_num [CONFIDENCE_THRESHOLD])
  have hkb : keptBefore [(⟨"hello", -9/10, 0⟩ : TranscriptSegment)] 0 = 0 := rfl
  rw [hkb] at h
  rw [h]
  have hc : correctWithGroq okEmptyOracle (pyStrip ("hello"))
      (fullContext (stage1 [(⟨"hello", -9/10, 0⟩ : TranscriptSegment)]).1) = ("" : String) := by
    unfold correctWithGroq okEmptyOracle
    decide
  rw [hc]
  decide

/-- C1 witness: with a client whose reply is the short string fixed, the
flagged segment's position holds exactly the correction result. -/
theorem claim_C1_witness :
    (transcribeParts (some okFixedOracle) [⟨"helo wrld", -9/10, 0⟩])[
        keptBefore [⟨"helo wrld", -9/10, 0⟩] 0]?
      = some (if correctWithGroq okFixedOracle (pyStrip ("helo wrld"))
                  (fullContext (stage1 [⟨"helo wrld", -9/10, 0⟩]).1) = ""
              then placeholder (pyStrip ("helo wrld"))
              else correctWithGroq okFixedOracle (pyStrip ("helo wrld"))
                  (fullContext (stage1 [⟨"helo wrld", -9/10, 0⟩]).1)) :=
  (claim_C1_flagged_reassembly okFixedOracle [⟨"helo wrld", -9/10, 0⟩] 0
    ⟨"helo wrld", -9/10, 0⟩ rfl (by show (0 : ℚ) ≤ 3/5; norm_num)
    (by show (-9/10 : ℚ) < CONFIDENCE_THRESHOLD; norm_num [CONFIDENCE_THRESHOLD])).1

/-- C3 (amended): when the correction call raises or times out, a
flagged segment with non-empty stripped text ends up, at its position in
final_parts, as exactly its original pre-correction text, and the frame
keeps all its surviving segments (the parts list has one entry per
segment that passed the speech filter). -/
theorem claim_C3_error_degrades_to_original (oracle : GroqOracle)
    (segs : List TranscriptSegment) (i : Nat) (seg : TranscriptSegment)
    (hget : segs[i]? = some seg)
    (hns : seg.noSpeechProb ≤ 3/5)
    (hconf : seg.avgLogprob < CONFIDENCE_THRESHOLD)
    (herr : oracle (pyStrip seg.text) (fullContext (stage1 segs).1) = Except.error ())
    (hne : pyStrip seg.text ≠ ("" : String)) :
    (transcribeParts (some oracle) segs)[keptBefore segs i]? = some (pyStrip seg.text)
    ∧ (transcribeParts (some oracle) segs).length = (segs.filter keepSeg).length := by
  have hc : correctWithGroq oracle (pyStrip seg.text) (fullContext (stage1 segs).1)
      = pyStrip seg.text := by
    unfold correctWithGroq
    rw [herr]
  constructor
  · have h := transcribeParts_flagged_getElem? oracle segs i seg hget hns hconf
    rw [hc, if_neg hne] at h
    exact h
  · exact transcribeParts_length (some oracle) segs

/-- C3 counterexample: a flagged segment whose stripped text is empty is
left as the bare placeholder when the correction call raises, so the
final output for that segment is not its pre-correction text. -/
theorem claim_C3_counterexample :
    (transcribeParts (some errOracle) [⟨" ", -9/10, 0⟩])[0]? = some ("[?][/?]" : String)
    ∧ pyStrip (" ") = ("" : String)
    ∧ ("[?][/?]" : String) ≠ ("" : String) := by
  refine ⟨?_, by decide, by decide⟩
  have h := transcribeParts_flagged_getElem? errOracle [⟨" ", -9/10, 0⟩] 0
    ⟨" ", -9/10, 0⟩ rfl (by show (0 : ℚ) ≤ 3/5; norm_num)
    (by show (-9/10 : ℚ) < CONFIDENCE_THRESHOLD; norm_num [CONFIDENCE_THRESHOLD])
  have hkb : keptBefore [(⟨" ", -9/10, 0⟩ : TranscriptSegment)] 0 = 0 := rfl
  rw [hkb] at h
  rw [h]
  have hc : correctWithGroq errOracle (pyStrip (" "))
      (fullContext (stage1 [(⟨" ", -9/10, 0⟩ : TranscriptSegment)]).1) = ("" : String) := by
    unfold correctWithGroq errOracle
    decide
  rw [hc]
  decide

/-- C3 witness: a flagged non-empty segment whose correction call raises
degrades to its original text while the frame keeps its surviving
segment count. -/
theorem claim_C3_witness :
    (transcribeParts (some errOracle) [⟨"hello", -9/10, 0⟩])[
        keptBefore [⟨"hello", -9/10, 0⟩] 0]? = some (pyStrip ("hello"))
    ∧ (transcribeParts (some errOracle) [⟨"hello", -9/10, 0⟩]).length
        = (([(⟨"hello", -9/10, 0⟩ : TranscriptSegment)]).filter keepSeg).length :=
  claim_C3_error_degrades_to_original errOracle [⟨"hello", -9/10, 0⟩] 0
    ⟨"hello", -9/10, 0⟩ rfl (by show (0 : ℚ) ≤ 3/5; norm_num)
    (by show (-9/10 : ℚ) < CONFIDENCE_THRESHOLD; norm_num [CONFIDENCE_THRESHOLD])
    rfl (by decide)

/-- C2: the correction layer substitutes a service reply only when its
length is at most three times the original phrase's length: any result
differing from the original obeys the bound, and a reply stripping to
exactly four times the original's length leaves the original unchanged. -/
theorem claim_C2_acceptance_policy (oracle : GroqOracle) (t ctx : String) :
    (correctWithGroq oracle t ctx ≠ t → (correctWithGroq oracle t ctx).length ≤ 3 * t.length)
    ∧ (∀ resp, oracle t ctx = Except.ok resp → (pyStrip resp).length = 4 * t.length →
        correctWithGroq oracle t ctx = t) := by
  constructor
  · intro hne
    unfold correctWithGroq at hne ⊢
    cases h : oracle t ctx with
    | error e =>
      rw [h] at hne
      dsimp only at hne
      exact absurd rfl hne
    | ok resp =>
      rw [h] at hne
      dsimp only at hne ⊢
      by_cases hlen : (pyStrip resp).length > t.length * 3
      · rw [if_pos hlen] at hne
        exact absurd rfl hne
      · rw [if_neg hlen]
        have := le_of_not_lt hlen
        omega
  · intro resp hok hlen4
    unfold correctWithGroq
    rw [hok]
    dsimp only
    by_cases h0 : t.length = 0
    · have hc0 : (pyStrip resp).length = 0 := by omega
      have hce : pyStrip resp = ("" : String) := string_length_zero hc0
      have hte : t = ("" : String) := string_length_zero h0
      rw [if_neg (by omega), hce, hte]
    · have hgt : (pyStrip resp).length > t.length * 3 := by omega
      rw [if_pos hgt]

/-- C2 witness: a two-character reply for a two-character phrase is
accepted within the length bound, while an eight-character reply for the
same phrase (four times its length) is rejected and the original kept. -/
theorem claim_C2_witness :
    (correctWithGroq okShortOracle ("ab") ("")).length ≤ 3 * ("ab" : String).length
    ∧ correctWithGroq okLongOracle ("ab") ("") = ("ab" : String) :=
  ⟨(claim_C2_acceptance_policy okShortOracle ("ab") ("")).1 (by decide),
   (claim_C2_acceptance_policy okLongOracle ("ab") ("")).2 ("xxxxxxxx") rfl (by decide)⟩

/-- C10: transcribe_audio is total on its public interface: None and
empty audio return the empty string for every engine (the engine is
never consulted), and an engine that raises also yields the empty
string. -/
theorem claim_C10_total_interface (groq : Option GroqOracle)
    (engine : List ℚ → Except Unit WhisperResult) (samples : List ℚ) :
    transcribeFull groq engine none = ("" : String)
    ∧ transcribeFull groq engine (some []) = ("" : String)
    ∧ (engine samples = Except.error () → transcribeFull groq engine (some samples) = ("" : String)) := by
  refine ⟨rfl, rfl, ?_⟩
  intro herr
  by_cases h0 : samples.length = 0
  · simp [transcribeFull, h0]
  · simp [transcribeFull, h0, herr]

/-- C10 witness: the always-raising engine and a concrete non-empty
buffer exercise all three branches. -/
theorem claim_C10_witness :
    transcribeFull none errEngine none = ("" : String)
    ∧ transcribeFull none errEngine (some []) = ("" : String)
    ∧ transcribeFull none errEngine (some [0]) = ("" : String) :=
  ⟨(claim_C10_total_interface none errEngine [0]).1,
   (claim_C10_total_interface none errEngine [0]).2.1,
   (claim_C10_total_interface none errEngine [0]).2.2 rfl⟩

end Transcriber

namespace MeetingCapture

theorem length_int16ToFloat (raw : List ℤ) : (int16ToFloat raw).length = raw.length := by
  unfold int16ToFloat
  exact List.length_map raw _

theorem length_peakNormalize (xs : List ℚ) : (peakNormalize xs).length = xs.length := by
  unfold peakNormalize
  split
  · exact List.length_map xs _
  · rfl

theorem length_noiseGate (xs : List ℚ) : (noiseGate xs).length = xs.length := by
  unfold noiseGate
  exact List.length_map xs _

theorem linspace_length (lo hi : ℚ) (num : Nat) : (linspace lo hi num).length = num := by
  unfold linspace
  split
  · exact List.length_replicate num lo
  · rw [List.length_map, List.length_range]

theorem drainLoop_eq_nil (q : List (List ℚ)) : drainLoop q = [] := by
  induction q with
  | nil => rfl
  | cons x rest ih => exact ih

theorem zipWith_avg_self (l : List ℚ) :
    List.zipWith (fun x y => (x + y) / 2) l l = l := by
  induction l with
  | cons a rest ih =>
    show ((a + a) / 2) :: List.zipWith (fun x y => (x + y) / 2) rest rest = a :: rest
    rw [ih]
    congr 1
    ring
  | nil => rfl

theorem mixFrame_length (a b : List ℚ) :
    (mixFrame a b).length = min a.length b.length := by
  simp only [mixFrame]
  rw [List.length_zipWith, List.length_take, List.length_take]
  omega

theorem mixFrame_self (a : List ℚ) : mixFrame a a = a := by
  simp only [mixFrame, Nat.min_self, List.take_length]
  exact zipWith_avg_self a

/-- C7: when both per-source queues hold a frame, the synchronizer
dequeues exactly one from each and appends their mix to the shared
output queue; the mix has length min of the two inputs; mixing a frame
with itself returns the frame; when either queue is empty nothing is
dequeued or emitted. -/
theorem claim_C7_synchronizer_mixing (a b : List ℚ)
    (restMic restSpeaker outQ : List (List ℚ)) (micQ speakerQ : List (List ℚ)) :
    tryMix (a :: restMic) (b :: restSpeaker) outQ
        = (restMic, restSpeaker, outQ ++ [mixFrame a b])
    ∧ (mixFrame a b).length = min a.length b.length
    ∧ mixFrame a a = a
    ∧ (micQ = [] ∨ speakerQ = [] → tryMix micQ speakerQ outQ = (micQ, speakerQ, outQ)) := by
  refine ⟨rfl, mixFrame_length a b, mixFrame_self a, ?_⟩
  intro h
  rcases h with h | h
  · subst h
    cases speakerQ <;> rfl
  · subst h
    cases micQ <;> rfl

/-- C7 witness: a two-sample mic frame against a one-sample speaker frame
mixes to the one-sample average, and an empty mic queue leaves all
queues untouched. -/
theorem claim_C7_witness :
    tryMix [[(1 : ℚ), 2], [(3 : ℚ)]] [[(4 : ℚ)]] [] = ([[(3 : ℚ)]], [], [[(5 : ℚ)/2]])
    ∧ tryMix ([] : List (List ℚ)) [[(9 : ℚ)]] [] = ([], [[(9 : ℚ)]], []) := by
  have h := claim_C7_synchronizer_mixing [(1 : ℚ), 2] [(4 : ℚ)] [[(3 : ℚ)]] []
    ([] : List (List ℚ)) ([] : List (List ℚ)) [[(9 : ℚ)]]
  refine ⟨h.1.trans ?_, h.2.2.2 (Or.inl rfl)⟩
  have hmix : mixFrame [(1 : ℚ), 2] [(4 : ℚ)] = [(5 : ℚ)/2] := by
    unfold mixFrame
    norm_num
  rw [hmix]
  rfl

/-- C8: for a positive rate other than 16000 and a non-empty frame, the
resampled frame exists and its length is the integer part of
len * 16000 / r, which is within one of the rounded value the claim
states; for any rate r, resampling from r to r is the identity. -/
theorem claim_C8_resample_length_identity (samples : List ℚ) (r : Nat) :
    (r ≠ 16000 → 0 < r → 0 < samples.length →
      ∃ ys, resample samples r 16000 = some ys
        ∧ ys.length = samples.length * 16000 / r
        ∧ ((ys.length : ℤ) - round ((samples.length * 16000 : ℚ) / r)).natAbs ≤ 1)
    ∧ resample samples r r = some samples := by
  constructor
  · intro hr hrpos hlen
    obtain ⟨x, xs, rfl⟩ : ∃ x xs, samples = x :: xs := by
      cases samples with
      | nil => simp at hlen
      | cons x xs => exact ⟨x, xs, rfl⟩
    refine ⟨(linspace 0 (((x :: xs).length : ℚ) - 1) ((x :: xs).length * 16000 / r)).map
        (interpAt (x :: xs)), ?_, ?_, ?_⟩
    · unfold resample
      rw [if_neg hr, if_neg (Nat.pos_iff_ne_zero.mp hrpos)]
      rfl
    · rw [List.length_map, linspace_length]
    · rw [List.length_map, linspace_length]
      set m : Nat := (x :: xs).length * 16000 with hm
      have hmod : m % r < r := Nat.mod_lt m hrpos
      have h1 : m / r * r ≤ m := Nat.div_mul_le_self m r
      have h2 : m < (m / r + 1) * r := by
        calc m = r * (m / r) + m % r := (Nat.div_add_mod m r).symm
        _ < r * (m / r) + r := Nat.add_lt_add_left hmod _
        _ = (m / r + 1) * r := by ring
      have hr0 : (0 : ℚ) < (r : ℚ) := by exact_mod_cast hrpos
      have hfloor : ⌊((m : ℚ)) / (r : ℚ)⌋ = ((m / r : Nat) : ℤ) := by
        rw [Int.floor_eq_iff]
        constructor
        · rw [le_div_iff hr0]
          exact_mod_cast h1
        · rw [div_lt_iff hr0]
          push_cast
          exact_mod_cast h2
      have hcast : ((((x :: xs).length : ℚ)) * 16000) / (r : ℚ) = ((m : ℚ)) / (r : ℚ) := by
        rw [hm]
        push_cast
        ring_nf
      rw [hcast]
      have hrd : round (((m : ℚ)) / (r : ℚ)) = ⌊((m : ℚ)) / (r : ℚ) + 1/2⌋ := round_eq _
      have hlow : ⌊((m : ℚ)) / (r : ℚ)⌋ ≤ ⌊((m : ℚ)) / (r : ℚ) + 1/2⌋ :=
        Int.floor_le_floor (by linarith)
      have hhigh : ⌊((m : ℚ)) / (r : ℚ) + 1/2⌋ ≤ ⌊((m : ℚ)) / (r : ℚ)⌋ + 1 := by
        calc ⌊((m : ℚ)) / (r : ℚ) + 1/2⌋ ≤ ⌊((m : ℚ)) / (r : ℚ) + 1⌋ :=
          Int.floor_le_floor (by linarith)
        _ = ⌊((m : ℚ)) / (r : ℚ)⌋ + 1 := by
          exact_mod_cast Int.floor_add_int (((m : ℚ)) / (r : ℚ)) 1
      rw [hrd]
      rw [hfloor] at hlow hhigh
      omega
  · unfold resample
    rw [if_pos rfl]

/-- C8 witness: a two-sample frame at 8000 Hz resamples to 16000 Hz with
four samples, and resampling at equal rates is the identity. -/
theorem claim_C8_witness :
    (∃ ys, resample [(1 : ℚ), 2] 8000 16000 = some ys
      ∧ ys.length = [(1 : ℚ), 2].length * 16000 / 8000
      ∧ ((ys.length : ℤ) - round (([(1 : ℚ), 2].length * 16000 : ℚ) / 8000)).natAbs ≤ 1)
    ∧ resample [(1 : ℚ), 2] 8000 8000 = some [(1 : ℚ), 2] :=
  ⟨(claim_C8_resample_length_identity [(1 : ℚ), 2] 8000).1 (by decide) (by decide) (by decide),
   (claim_C8_resample_length_identity [(1 : ℚ), 2] 8000).2⟩

/-- C4 (amended): the single-source capture loop implements the claimed
five-step pipeline, in order, on full frames of one or two interleaved
channels; the dual-capture loop (see the counterexample) omits peak
normalization and the noise gate. -/
theorem claim_C4_single_loop_five_steps (chunkSamples actualRate channels : Nat)
    (raw : List ℤ)
    (hch : channels = 1 ∨ channels = 2)
    (hlen : raw.length = channels * chunkSamples)
    (hcs : 0 < chunkSamples) :
    captureProcessSingle chunkSamples actualRate raw = specFiveStep channels actualRate raw := by
  have hlen1 : (noiseGate (peakNormalize (int16ToFloat raw))).length = raw.length := by
    rw [length_noiseGate, length_peakNormalize, length_int16ToFloat]
  rcases hch with h | h
  · subst h
    have hno : ¬ chunkSamples < (noiseGate (peakNormalize (int16ToFloat raw))).length := by
      rw [hlen1, hlen]
      omega
    simp only [captureProcessSingle, specFiveStep]
    rw [if_neg hno, if_neg (by omega : ¬ (1 : Nat) = 2)]
  · subst h
    have hyes : chunkSamples < (noiseGate (peakNormalize (int16ToFloat raw))).length := by
      rw [hlen1, hlen]
      omega
    have heven : (noiseGate (peakNormalize (int16ToFloat raw))).length % 2 = 0 := by
      rw [hlen1, hlen]
      omega
    simp only [captureProcessSingle, specFiveStep]
    rw [if_pos hyes, if_pos heven]
    simp

/-- C4 counterexample: on a one-sample full-scale-half frame at the
canonical rate, the dual-capture worker emits the raw converted sample
1/2 while the claimed five-step pipeline emits the normalized 19/20:
the dual worker does not apply peak normalization (nor the noise gate). -/
theorem claim_C4_counterexample :
    captureProcessDual 1 16000 [(16384 : ℤ)] = some [(1 : ℚ)/2]
    ∧ specFiveStep 1 16000 [(16384 : ℤ)] = some [(19 : ℚ)/20]
    ∧ some [(1 : ℚ)/2] ≠ some [(19 : ℚ)/20] := by
  have hf : int16ToFloat [(16384 : ℤ)] = [(1 : ℚ)/2] := by
    simp only [int16ToFloat, List.map]
    norm_num
  have hm : maxAbs [(1 : ℚ)/2] = 1/2 := by
    simp only [maxAbs, List.foldl]
    rw [abs_of_nonneg (by norm_num)]
    exact max_eq_right (by norm_num)
  have hpn : peakNormalize [(1 : ℚ)/2] = [(19 : ℚ)/20] := by
    simp only [peakNormalize, hm]
    rw [if_pos (by norm_num)]
    norm_num
  have hng : noiseGate [(19 : ℚ)/20] = [(19 : ℚ)/20] := by
    simp only [noiseGate, List.map]
    rw [if_neg (by rw [abs_of_nonneg (by norm_num)]; norm_num)]
  refine ⟨?_, ?_, ?_⟩
  · simp only [captureProcessDual, hf]
    rw [if_neg (by omega : ¬ (1 : Nat) = 2), if_neg (by simp)]
  · simp only [specFiveStep, hf, hpn, hng]
    rw [if_neg (by omega : ¬ (1 : Nat) = 2), if_neg (by simp)]
  · intro h
    simp only [Option.some.injEq, List.cons.injEq, and_true] at h
    norm_num at h

/-- C4 witness: a two-channel one-chunk frame at the canonical rate goes
through the single-source loop exactly as the five-step pipeline
prescribes. -/
theorem claim_C4_witness :
    captureProcessSingle 1 16000 [(100 : ℤ), 200] = specFiveStep 2 16000 [(100 : ℤ), 200] :=
  claim_C4_single_loop_five_steps 1 16000 2 [(100 : ℤ), 200] (Or.inr rfl) rfl (by decide)

/-- C5 (amended): start performs no already-active check: its result and
final state are independent of the incoming recording flag, so a call on
an active session proceeds exactly like one on an idle session. -/
theorem claim_C5_start_ignores_active_flag (st : CaptureState) (args : StartArgs)
    (env : StartEnv) (b : Bool) :
    start { st with isRecording := b } args env = start st args env := by
  cases st
  rfl

/-- C5 counterexample: a start call on an already-active session (flag
set, one worker running) returns True and spawns another worker; there
is no AlreadyRunning failure path, contradicting the fail-fast claim. -/
theorem claim_C5_counterexample :
    start ⟨true, 16000, 80000, 1⟩ ⟨some 3, 16000, 5, false⟩ ⟨none, none, none⟩
      = (⟨true, 16000, 80000, 2⟩, true) := rfl

theorem stopJoins_timeout (s : SessionState) :
    ∀ p ∈ stopJoins s, p.2 = 2 := by
  intro p hp
  unfold stopJoins at hp
  rcases List.mem_append.mp hp with h | h
  · rcases List.mem_append.mp h with h' | h'
    · split at h' <;> simp_all
    · split at h' <;> simp_all
  · split at h <;> simp_all

/-- C6 (amended): stop clears the recording flag, drains the shared
output queue but leaves the per-source queues untouched, joins each
live worker with the 2-second bound, and returns a state that does not
depend on whether any join timed out. -/
theorem claim_C6_stop_behavior (s : SessionState) (jt : String → Bool) :
    stop s jt = { s with isRecording := false, outputQueue := [] }
    ∧ (∀ p ∈ stopJoins s, p.2 = 2)
    ∧ (∀ jt', stop s jt = stop s jt') := by
  refine ⟨?_, stopJoins_timeout s, fun _ => rfl⟩
  unfold stop
  rw [drainLoop_eq_nil]

/-- C6 counterexample: after stop on a dual-capture session, a frame left
in the mic queue is still queued: not all frames in the session's queues
are drained and discarded. -/
theorem claim_C6_counterexample :
    (stop ⟨true, false, true, true, [], [[(1 : ℚ)]], []⟩ (fun _ => true)).micQueue
      = [[(1 : ℚ)]]
    ∧ ([[(1 : ℚ)]] : List (List ℚ)) ≠ [] := by
  exact ⟨rfl, by simp⟩

/-- C6 witness: on a session with one live worker and one queued output
frame, stop yields the drained inactive state, and the join it performs
carries the 2-second timeout. -/
theorem claim_C6_witness :
    stop ⟨true, true, false, false, [[(2 : ℚ)]], [], []⟩ (fun _ => true)
      = ⟨false, true, false, false, [], [], []⟩
    ∧ ((("thread" : String), 2) : String × Nat).2 = 2 := by
  have h := claim_C6_stop_behavior ⟨true, true, false, false, [[(2 : ℚ)]], [], []⟩
    (fun _ => true)
  exact ⟨h.1, h.2.1 (("thread", 2)) (by simp [stopJoins])⟩

end MeetingCapture

end AIMeetingNotes
